import Mathlib

/-!
Verification of `stingray/base.py` (class `StingrayObject`): attribute
classification (`array_attrs`, `meta_attrs`, `get_meta_dict`), conversion to
and from tabular representations (`to_astropy_table`, `from_astropy_table`,
`from_xarray`, `from_pandas`), and the generic `read`/`write` pipeline with
its complex-column splitting and merging for text formats.

The embedding models Python values reachable by this code as the inductive
type `Value`: `null` is Python `None`, `int`/`cplx` are numeric scalars
(complex numbers carry integer real and imaginary parts, enough to settle the
claims bit-exactly), `str` a string, `arr` a (possibly nested) list/ndarray,
`func` any callable (methods), and `sobj` any value exposing a `meta_attrs`
member (a nested StingrayObject).  A `StingrayObject` instance is a finite
association list of attribute names to values plus the `main_array_attr`
declaration; attribute listing in Python (`dir`) is name based and sorted, so
only the set of bindings is observable and the association-list order is
immaterial to every statement below.  Class machinery present in `dir(self)`
(dunder names, bound methods) is filtered out by every classifier considered
(leading underscore, callability, non-iterability) and is not represented.
File codecs are out of scope per the specification: the table handed to
`Table.write` is matched with the table produced by `Table.read`.
-/

inductive Value where
  | null
  | int (n : Int)
  | cplx (re im : Int)
  | str (s : String)
  | arr (xs : List Value)
  | func
  | sobj

mutual
/-- `np.shape`, restricted to the values of the embedding: scalars, strings,
`None`, callables and objects have shape `()`; a list has shape
`len :: s` when all its elements share the shape `s` (numpy's rectangular
case, including `np.shape([]) = (0,)`), and shape `(len,)` when ragged
(numpy's object-dtype fallback). -/
def shape : Value → List Nat
  | Value.arr xs =>
      match commonShape xs with
      | some s => xs.length :: s
      | Option.none => [xs.length]
  | _ => []

/-- The shape shared by all elements of a list, if there is one. -/
def commonShape : List Value → Option (List Nat)
  | [] => some []
  | [v] => some (shape v)
  | v :: rest =>
      match commonShape rest with
      | some s => if shape v = s then some s else Option.none
      | Option.none => Option.none
end

/-- `isinstance(v, Iterable)`: lists/ndarrays and strings are iterable;
`None`, numbers, callables and StingrayObjects are not. -/
def isIterable : Value → Bool
  | Value.arr _ => true
  | Value.str _ => true
  | _ => false

/-- `callable(v)`. -/
def isCallable : Value → Bool
  | Value.func => true
  | _ => false

/-- `hasattr(v, "meta_attrs")`: true exactly for nested StingrayObjects. -/
def hasMetaAttrs : Value → Bool
  | Value.sobj => true
  | _ => false

/-- `s.startswith(p)`, on the character lists (kernel-computable, unlike the
builtin `String` operations). -/
def strStartsWith (s p : String) : Bool :=
  p.data.isPrefixOf s.data

/-- `s.endswith(p)`. -/
def strEndsWith (s p : String) : Bool :=
  p.data.isSuffixOf s.data

/-- Left-to-right non-overlapping replacement of `pat` by `rep`, with a
structural fuel (one character is consumed per step, so `s.length` fuel is
never exhausted for the nonempty patterns used here). -/
def replaceFuel : Nat → List Char → List Char → List Char → List Char
  | 0, s, _, _ => s
  | Nat.succ n, s, pat, rep =>
      match s with
      | [] => []
      | c :: rest =>
          if pat.isPrefixOf s then rep ++ replaceFuel n (s.drop pat.length) pat rep
          else c :: replaceFuel n rest pat rep

/-- `s.replace(pat, rep)`. -/
def strReplace (s pat rep : String) : String :=
  String.mk (replaceFuel s.data.length s.data pat.data rep.data)

/-- `s.lower()`. -/
def strToLower (s : String) : String :=
  String.mk (s.data.map Char.toLower)

/-- Whether `pat` occurs in `s` (a helper for substring search). -/
def subOf : List Char → List Char → Bool
  | [], pat => pat.isEmpty
  | c :: rest, pat => pat.isPrefixOf (c :: rest) || subOf rest pat

/-- Python's `pat in s` on strings. -/
def strContains (s pat : String) : Bool :=
  subOf s.data pat.data

/-- A `StingrayObject` instance: the declared `main_array_attr` name and the
object's data attributes as an association list. -/
structure SObj where
  main_array_attr : String
  attrs : List (String × Value)

/-- `getattr(o, a)`: `Option.none` models `AttributeError`. -/
def getAttr (o : SObj) (a : String) : Option Value :=
  o.attrs.lookup a

/-- The attribute names of `o` (`dir(o)` restricted to data attributes). -/
def attrNames (o : SObj) : List String :=
  o.attrs.map Prod.fst

/-- Well-formed object: Python attribute names are unique. -/
abbrev WF (o : SObj) : Prop :=
  (attrNames o).Nodup

/-- `StingrayObject.array_attrs`: names whose value is iterable and has the
same `np.shape` as the main attribute's value; `[]` when the main attribute
is `None`.  (When the main attribute is missing altogether Python raises
`AttributeError`; no statement below touches that case.) -/
def array_attrs (o : SObj) : List String :=
  match getAttr o o.main_array_attr with
  | Option.none => []
  | some Value.null => []
  | some main_attr =>
      (attrNames o).filter (fun a =>
        match getAttr o a with
        | some v => isIterable v && shape v == shape main_attr
        | Option.none => false)

/-- `StingrayObject.meta_attrs`: names not in `array_attrs`, not starting
with an underscore, bound to a non-callable value that does not itself have a
`meta_attrs` member. -/
def meta_attrs (o : SObj) : List String :=
  let arr_attrs := array_attrs o
  (attrNames o).filter (fun a =>
    !arr_attrs.contains a && !strStartsWith a "_" &&
      match getAttr o a with
      | some v => !isCallable v && !hasMetaAttrs v
      | Option.none => false)

/-- `StingrayObject.get_meta_dict`: every meta attribute whose value is not
`None`, with its value. -/
def get_meta_dict (o : SObj) : List (String × Value) :=
  (meta_attrs o).filterMap (fun a =>
    match getAttr o a with
    | some Value.null => Option.none
    | some v => some (a, v)
    | Option.none => Option.none)

/-- `setattr(o, a, v)`: rebind `a` to `v`.  The binding is moved to the
front; Python keeps insertion order, but attribute listing is name based
(`dir` sorts), so only the set of bindings is observable. -/
def setAttr (o : SObj) (a : String) (v : Value) : SObj :=
  { o with attrs := (a, v) :: o.attrs.filter (fun p => p.1 != a) }

/-- A sequence of `setattr` calls, one per pair, in order. -/
def setAll (o : SObj) (kvs : List (String × Value)) : SObj :=
  kvs.foldl (fun acc p => setAttr acc p.1 p.2) o

/-- The class object `cls` seen by the `from_*` classmethods: it carries the
`main_array_attr` declaration and no data attributes. -/
def bareClass (o : SObj) : SObj :=
  { main_array_attr := o.main_array_attr, attrs := [] }

/-- An `astropy.table.Table`: named columns (each a list of rows) plus the
`meta` mapping. -/
structure ATable where
  cols : List (String × List Value)
  meta : List (String × Value)

/-- `len(ts)` for a Table: the number of rows (0 when there are no columns). -/
def ATable.len (t : ATable) : Nat :=
  match t.cols with
  | [] => 0
  | (_, rows) :: _ => rows.length

/-- `StingrayObject.to_astropy_table`: one column per array attribute
(`np.asarray` of its value), `meta` from `get_meta_dict`.  An array attribute
is always bound to an `arr` value except in the degenerate 0-d case (a string
main attribute), which astropy itself rejects as a column and which no
statement below reaches. -/
def to_astropy_table (o : SObj) : ATable :=
  { cols := (array_attrs o).filterMap (fun a =>
      match getAttr o a with
      | some (Value.arr xs) => some (a, xs)
      | _ => Option.none),
    meta := get_meta_dict o }

/-- `StingrayObject.from_astropy_table`: the empty-table sentinel returns the
class itself untouched; otherwise the main column is set first, then every
other column (Python's `continue` on the main name is the filter), then every
`meta` entry.  `Option.none` models the `KeyError` raised when the main
column is missing.  (The source mutates and returns `cls`; the embedding
threads that class state explicitly.) -/
def from_astropy_table (cls : SObj) (ts : ATable) : Option SObj :=
  if ATable.len ts = 0 then some cls
  else
    match ts.cols.lookup cls.main_array_attr with
    | Option.none => Option.none
    | some mainrows =>
        let c1 := setAttr cls cls.main_array_attr (Value.arr mainrows)
        let c2 := setAll c1
          ((ts.cols.filter (fun p => p.1 != cls.main_array_attr)).map
            (fun p => (p.1, Value.arr p.2)))
        some (setAll c2 ts.meta)

/-- An `xarray.Dataset`: coordinate variables, data variables and the
`attrs` mapping. -/
structure XDataset where
  coords : List (String × List Value)
  data_vars : List (String × List Value)
  attrs : List (String × Value)

/-- `len(ts)` for a Dataset: the number of data variables. -/
def XDataset.len (d : XDataset) : Nat :=
  d.data_vars.length

/-- `ts[name]` for a Dataset: a data variable, or else a coordinate. -/
def XDataset.getVar (d : XDataset) (a : String) : Option (List Value) :=
  match d.data_vars.lookup a with
  | some v => some v
  | Option.none => d.coords.lookup a

/-- `StingrayObject.from_xarray`: like `from_astropy_table` but the array
attributes are taken from `ts.coords`, and `attrs` entries whose key collides
with a coordinate name are skipped. -/
def from_xarray (cls : SObj) (ts : XDataset) : Option SObj :=
  if XDataset.len ts = 0 then some cls
  else
    match ts.getVar cls.main_array_attr with
    | Option.none => Option.none
    | some mainrows =>
        let coordNames := ts.coords.map Prod.fst
        let c1 := setAttr cls cls.main_array_attr (Value.arr mainrows)
        let c2 := setAll c1
          ((ts.coords.filter (fun p => p.1 != cls.main_array_attr)).map
            (fun p => (p.1, Value.arr p.2)))
        some (setAll c2 (ts.attrs.filter (fun p => !coordNames.contains p.1)))

/-- A `pandas.DataFrame`: named columns plus the `attrs` mapping. -/
structure PDataFrame where
  cols : List (String × List Value)
  attrs : List (String × Value)

/-- `len(ts)` for a DataFrame: the number of rows. -/
def PDataFrame.len (d : PDataFrame) : Nat :=
  match d.cols with
  | [] => 0
  | (_, rows) :: _ => rows.length

/-- `StingrayObject.from_pandas`: like `from_astropy_table` but `attrs`
entries whose key collides with a column name are skipped. -/
def from_pandas (cls : SObj) (ts : PDataFrame) : Option SObj :=
  if PDataFrame.len ts = 0 then some cls
  else
    match ts.cols.lookup cls.main_array_attr with
    | Option.none => Option.none
    | some mainrows =>
        let colNames := ts.cols.map Prod.fst
        let c1 := setAttr cls cls.main_array_attr (Value.arr mainrows)
        let c2 := setAll c1
          ((ts.cols.filter (fun p => p.1 != cls.main_array_attr)).map
            (fun p => (p.1, Value.arr p.2)))
        some (setAll c2 (ts.attrs.filter (fun p => !colNames.contains p.1)))

/-- `ts.colnames`. -/
def ATable.colnames (t : ATable) : List String :=
  t.cols.map Prod.fst

/-- `ts[c] = rows`: replace the column in place if it exists, otherwise
append it at the end (astropy semantics). -/
def ATable.setCol (t : ATable) (c : String) (rows : List Value) : ATable :=
  if t.colnames.contains c then
    { t with cols := t.cols.map (fun p => if p.1 = c then (c, rows) else p) }
  else { t with cols := t.cols ++ [(c, rows)] }

/-- `ts.remove_column(c)`. -/
def ATable.removeCol (t : ATable) (c : String) : ATable :=
  { t with cols := t.cols.filter (fun p => p.1 != c) }

/-- `np.iscomplex(v)`: true only for a complex value with nonzero imaginary
part. -/
def iscomplexVal : Value → Bool
  | Value.cplx _ im => im != 0
  | _ => false

/-- `v.real`: the real part of a complex scalar, a real scalar unchanged. -/
def valRe : Value → Value
  | Value.cplx re _ => Value.int re
  | v => v

/-- `v.imag`: the imaginary part of a complex scalar, zero for a real one. -/
def valIm : Value → Value
  | Value.cplx _ im => Value.int im
  | Value.int _ => Value.int 0
  | v => v

/-- `v * 1j` on a scalar. -/
def cMul1j : Value → Value
  | Value.cplx re im => Value.cplx (-im) re
  | Value.int n => Value.cplx 0 n
  | v => v

/-- `v + 0.0j` on a scalar: coerce to complex. -/
def cPlus0j : Value → Value
  | Value.int n => Value.cplx n 0
  | v => v

/-- Scalar addition, as broadcast by `ts[c] += new`. -/
def cAddVal : Value → Value → Value
  | Value.cplx a b, Value.cplx c d => Value.cplx (a + c) (b + d)
  | Value.int a, Value.cplx c d => Value.cplx (a + c) d
  | Value.cplx a b, Value.int c => Value.cplx (a + c) b
  | Value.int a, Value.int c => Value.int (a + c)
  | v, _ => v

/-- Element-wise `+=` of two columns. -/
def rowsAdd (xs ys : List Value) : List Value :=
  List.zipWith cAddVal xs ys

/-- One iteration of `write`'s complex-splitting loop: when
`np.iscomplex(ts[col][0])`, append `col + ".real"` and `col + ".imag"` and
remove `col`.  (On an empty column Python's `ts[col][0]` raises `IndexError`;
that degenerate case is left untouched here and is unreached below.) -/
def splitOneCol (acc : ATable) (col : String) : ATable :=
  match acc.cols.lookup col with
  | Option.none => acc
  | some rows =>
      match rows.head? with
      | Option.none => acc
      | some v0 =>
          if iscomplexVal v0 then
            ((acc.setCol (col ++ ".real") (rows.map valRe)).setCol
                (col ++ ".imag") (rows.map valIm)).removeCol col
          else acc

/-- `write`'s complex-splitting loop over the snapshot of `ts.colnames`. -/
def splitComplexCols (ts : ATable) : ATable :=
  ts.colnames.foldl splitOneCol ts

/-- `col.replace(".real", "").replace(".imag", "")`. -/
def stripSuffix (col : String) : String :=
  strReplace (strReplace col ".real" "") ".imag" ""

/-- The body of one iteration of `read`'s complex-merging loop for a suffixed
column `col`, with `use_imag` the value Python's `is_imag` variable holds at
that point: multiply by `1j` when `use_imag`, coerce to complex, create or
add into the base column, and remove `col`. -/
def mergeOneCol (ts : ATable) (col : String) (use_imag : Bool) : ATable :=
  match ts.cols.lookup col with
  | Option.none => ts
  | some rows =>
      let new2 := (if use_imag then rows.map cMul1j else rows).map cPlus0j
      let base := stripSuffix col
      let ts2 :=
        if ts.colnames.contains base then
          match ts.cols.lookup base with
          | some old => ts.setCol base (rowsAdd old new2)
          | Option.none => ts
        else ts.setCol base new2
      ts2.removeCol col

/-- One iteration of `read`'s merging loop, threading the table (or the
raised `NameError`, `Option.none`) and the binding state of the local
`is_imag`: the walrus assignment to `is_imag` sits in a short-circuited `or`,
so when `col` ends in `".real"` the left operand is true, `is_imag` is not
assigned, and the subsequent `if is_imag` reads the *previous* iteration's
value — or raises `NameError` when no iteration has assigned it yet. -/
def mergeStep : Option ATable × Option Bool → String → Option ATable × Option Bool :=
  fun st col =>
    match st with
    | (Option.none, ii) => (Option.none, ii)
    | (some ts, isImagSt) =>
        if strEndsWith col ".real" then
          match isImagSt with
          | Option.none => (Option.none, isImagSt)
          | some ii => (some (mergeOneCol ts col ii), some ii)
        else
          if strEndsWith col ".imag" then (some (mergeOneCol ts col true), some true)
          else (some ts, some false)

/-- `read`'s complex-merging loop over the snapshot of `ts.colnames`;
`Option.none` is the `NameError` raised on an unbound `is_imag`. -/
def mergeComplexCols (ts : ATable) : Option ATable :=
  (ts.colnames.foldl mergeStep (some ts, Option.none)).1

/-- The `fmt.lower() == "ascii"` alias shared by `read` and `write`. -/
def normalizeFmt : Option String → Option String
  | Option.none => Option.none
  | some s => if strToLower s = "ascii" then some "ascii.ecsv" else some s

/-- `fmt is None or "ascii" in fmt`, deciding whether the complex-column
special-casing runs. -/
def complexHandled : Option String → Bool
  | Option.none => true
  | some s => strContains s "ascii"

/-- `StingrayObject.write`, non-pickle branch, up to the file codec (out of
scope): the table handed to `Table.write` after the `"ascii"` alias and the
complex-column split. -/
def write (o : SObj) (fmt : Option String) : ATable :=
  let fmt2 := normalizeFmt fmt
  let ts := to_astropy_table o
  if complexHandled fmt2 then splitComplexCols ts else ts

/-- `StingrayObject.read`, non-pickle branch, from the table `Table.read`
produced (the file codec is out of scope): the `"ascii"` alias, the
complex-column merge when the format is text or unspecified, then
`from_astropy_table`.  `Option.none` is a raised error. -/
def read (cls : SObj) (ts : ATable) (fmt : Option String) : Option SObj :=
  let fmt2 := normalizeFmt fmt
  if complexHandled fmt2 then
    match mergeComplexCols ts with
    | Option.none => Option.none
    | some ts2 => from_astropy_table cls ts2
  else from_astropy_table cls ts

/-- The deprecated-parameter resolution shared by `read` and `write`:
`format_` is copied into `fmt` only when `fmt` is unset, emitting one
`DeprecationWarning`; the second component counts the warnings emitted. -/
def resolveFmt : Option String → Option String → Option String × Nat
  | Option.none, some f => (some f, 1)
  | fmt, _ => (fmt, 0)

/-- `read(filename, fmt, format_)` entry point: resolve the deprecated
parameter, then run the reader; paired with the warning count. -/
def read_entry (cls : SObj) (ts : ATable) (fmt format_ : Option String) :
    Option SObj × Nat :=
  ((read cls ts (resolveFmt fmt format_).1), (resolveFmt fmt format_).2)

/-- `write(filename, fmt, format_)` entry point: resolve the deprecated
parameter, then run the writer; paired with the warning count. -/
def write_entry (o : SObj) (fmt format_ : Option String) : ATable × Nat :=
  ((write o (resolveFmt fmt format_).1), (resolveFmt fmt format_).2)

/-- A not-yet-initialized object as `StingrayObject.__init__` sees it: its
attribute names (class attributes such as the `main_array_attr` declaration
included). -/
structure RawObj where
  names : List String

/-- `hasattr(self, a)`. -/
def hasattrRaw (o : RawObj) (a : String) : Bool :=
  o.names.contains a

/-- `StingrayObject.__init__`: raise `RuntimeError` unless the
`main_array_attr` attribute is declared. -/
def init (o : RawObj) : Except String Unit :=
  if !hasattrRaw o "main_array_attr" then
    Except.error "A StingrayObject needs to have the main_array_attr attribute specified"
  else Except.ok ()

/-! ### Association-list lemmas -/

theorem lookup_eq_some_of_mem_nodup {α : Type} {l : List (String × α)} {a : String}
    {v : α} (hnd : (l.map Prod.fst).Nodup) (h : (a, v) ∈ l) :
    l.lookup a = some v := by
  induction l with
  | nil => cases h
  | cons p t ih =>
      obtain ⟨k, w⟩ := p
      rw [List.mem_cons] at h
      rcases h with h | h
      · have hk : a = k := congrArg Prod.fst h
        have hw : v = w := congrArg Prod.snd h
        subst hk; subst hw
        simp [List.lookup]
      · have hk : k ≠ a := by
          intro he
          have : k ∈ t.map Prod.fst := he ▸ List.mem_map_of_mem Prod.fst h
          exact (List.nodup_cons.mp hnd).1 this
        have hbeq : (a == k) = false := beq_false_of_ne (Ne.symm hk)
        simp [List.lookup, hbeq]
        exact ih (List.nodup_cons.mp hnd).2 h

theorem mem_of_lookup_eq_some {α : Type} {l : List (String × α)} {a : String}
    {v : α} (h : l.lookup a = some v) : (a, v) ∈ l := by
  induction l with
  | nil => simp [List.lookup] at h
  | cons p t ih =>
      obtain ⟨k, w⟩ := p
      cases hbk : (a == k) with
      | true =>
          have hk : a = k := eq_of_beq hbk
          subst hk
          simp [List.lookup] at h
          subst h
          exact List.mem_cons_self _ _
      | false =>
          simp [List.lookup, hbk] at h
          exact List.mem_cons_of_mem _ (ih h)

theorem lookup_filter_ne {α : Type} (l : List (String × α)) (a b : String)
    (hab : a ≠ b) : (l.filter (fun p => p.1 != b)).lookup a = l.lookup a := by
  induction l with
  | nil => rfl
  | cons p t ih =>
      obtain ⟨k, w⟩ := p
      by_cases hp : k = b
      · have h1 : ((k, w).1 != b) = false := by simp [hp]
        have h2 : (a == k) = false := beq_false_of_ne (by rw [hp]; exact hab)
        simp [List.filter_cons, h1, List.lookup, h2, ih]
      · have h1 : ((k, w).1 != b) = true := by simp [hp]
        cases hbk : (a == k) with
        | true => simp [List.filter_cons, h1, List.lookup, hbk]
        | false => simp [List.filter_cons, h1, List.lookup, hbk, ih]

/-! ### `setAttr` and `setAll` lemmas -/

theorem getAttr_setAttr_same (o : SObj) (a : String) (v : Value) :
    getAttr (setAttr o a v) a = some v := by
  simp [getAttr, setAttr, List.lookup]

theorem getAttr_setAttr_ne (o : SObj) {a b : String} (v : Value) (h : b ≠ a) :
    getAttr (setAttr o a v) b = getAttr o b := by
  have hbeq : (b == a) = false := beq_false_of_ne h
  simp only [getAttr, setAttr, List.lookup, hbeq]
  exact lookup_filter_ne o.attrs b a h

theorem setAll_cons (o : SObj) (p : String × Value) (t : List (String × Value)) :
    setAll o (p :: t) = setAll (setAttr o p.1 p.2) t := by
  simp [setAll]

theorem getAttr_setAll_not_mem (o : SObj) {kvs : List (String × Value)} {a : String}
    (h : a ∉ kvs.map Prod.fst) : getAttr (setAll o kvs) a = getAttr o a := by
  induction kvs generalizing o with
  | nil => rfl
  | cons p t ih =>
      rw [setAll_cons]
      have h1 : a ∉ t.map Prod.fst := fun hm => h (List.mem_cons_of_mem _ hm)
      have h2 : a ≠ p.1 := fun he => h (by rw [List.map_cons, he]; exact List.mem_cons_self _ _)
      rw [ih _ h1]
      exact getAttr_setAttr_ne o p.2 h2

theorem getAttr_setAll_mem (o : SObj) {kvs : List (String × Value)} {a : String}
    {v : Value} (hnd : (kvs.map Prod.fst).Nodup) (hmem : (a, v) ∈ kvs) :
    getAttr (setAll o kvs) a = some v := by
  induction kvs generalizing o with
  | nil => cases hmem
  | cons p t ih =>
      rw [List.mem_cons] at hmem
      rw [List.map_cons, List.nodup_cons] at hnd
      rcases hmem with h | h
      · have ha : a = p.1 := congrArg Prod.fst h
        have hv : v = p.2 := congrArg Prod.snd h
        have hnotin : a ∉ t.map Prod.fst := ha ▸ hnd.1
        rw [setAll_cons, getAttr_setAll_not_mem _ hnotin, ha, hv]
        exact getAttr_setAttr_same ..
      · rw [setAll_cons]
        exact ih _ hnd.2 h

/-! ### Classifier characterizations -/

theorem mem_attrNames_of_getAttr {o : SObj} {a : String} {v : Value}
    (h : getAttr o a = some v) : a ∈ attrNames o :=
  List.mem_map_of_mem Prod.fst (mem_of_lookup_eq_some h)

theorem array_attrs_eq_filter {o : SObj} {mv : Value}
    (hmain : getAttr o o.main_array_attr = some mv) (hnn : mv ≠ Value.null) :
    array_attrs o = (attrNames o).filter (fun a =>
      match getAttr o a with
      | some v => isIterable v && shape v == shape mv
      | Option.none => false) := by
  unfold array_attrs
  rw [hmain]
  cases mv <;> first | exact absurd rfl hnn | rfl

theorem array_attrs_nil_of_null {o : SObj}
    (hmain : getAttr o o.main_array_attr = some Value.null) :
    array_attrs o = [] := by
  unfold array_attrs
  rw [hmain]

theorem mem_array_attrs_iff {o : SObj} {mv : Value} {a : String}
    (hmain : getAttr o o.main_array_attr = some mv) (hnn : mv ≠ Value.null) :
    a ∈ array_attrs o ↔ a ∈ attrNames o ∧
      ∃ w, getAttr o a = some w ∧ isIterable w = true ∧ shape w = shape mv := by
  rw [array_attrs_eq_filter hmain hnn, List.mem_filter]
  refine and_congr_right (fun _ => ?_)
  cases h : getAttr o a with
  | none =>
      simp only [h]
      constructor
      · intro hf; cases hf
      · rintro ⟨w, hw, _⟩; cases hw
  | some w =>
      simp only [h, Bool.and_eq_true, beq_iff_eq]
      constructor
      · rintro ⟨h1, h2⟩; exact ⟨w, rfl, h1, h2⟩
      · rintro ⟨w2, hw2, h1, h2⟩
        cases hw2
        exact ⟨h1, h2⟩

theorem mem_meta_attrs_iff {o : SObj} {a : String} :
    a ∈ meta_attrs o ↔ a ∈ attrNames o ∧ a ∉ array_attrs o ∧
      strStartsWith a "_" = false ∧
      ∃ v, getAttr o a = some v ∧ isCallable v = false ∧ hasMetaAttrs v = false := by
  unfold meta_attrs
  rw [List.mem_filter]
  refine and_congr_right (fun _ => ?_)
  simp only [Bool.and_eq_true, Bool.not_eq_true']
  constructor
  · rintro ⟨⟨hc, hu⟩, hm⟩
    refine ⟨fun hmem => ?_, hu, ?_⟩
    · rw [List.elem_iff.symm] at hmem
      rw [List.contains, hmem] at hc
      cases hc
    · cases h : getAttr o a with
      | none => rw [h] at hm; cases hm
      | some v =>
          rw [h] at hm
          rw [Bool.and_eq_true, Bool.not_eq_true', Bool.not_eq_true'] at hm
          exact ⟨v, rfl, hm.1, hm.2⟩
  · rintro ⟨hnmem, hu, v, hv, hc, hmm⟩
    refine ⟨⟨?_, hu⟩, ?_⟩
    · have : (array_attrs o).elem a = false := by
        cases he : (array_attrs o).elem a
        · rfl
        · exact absurd (List.elem_iff.mp he) hnmem
      rw [List.contains, this]
    · rw [hv, Bool.and_eq_true, Bool.not_eq_true', Bool.not_eq_true']
      exact ⟨hc, hmm⟩

theorem mem_get_meta_dict_iff {o : SObj} {k : String} {v : Value} :
    (k, v) ∈ get_meta_dict o ↔
      k ∈ meta_attrs o ∧ getAttr o k = some v ∧ v ≠ Value.null := by
  unfold get_meta_dict
  rw [List.mem_filterMap]
  constructor
  · rintro ⟨a, ha, hfa⟩
    cases h : getAttr o a with
    | none => rw [h] at hfa; cases hfa
    | some w =>
        rw [h] at hfa
        cases w
        case null => cases hfa
        all_goals
          (injection hfa with h1
           injection h1 with hk hv2
           subst hk
           subst hv2
           exact ⟨ha, h, fun hc => by cases hc⟩)
  · rintro ⟨hk, hv, hnn⟩
    refine ⟨k, hk, ?_⟩
    rw [hv]
    cases v with
    | null => exact absurd rfl hnn
    | _ => rfl

/-! ### Shape lemmas -/

theorem shape_arr_cons (xs : List Value) :
    ∃ t, shape (Value.arr xs) = xs.length :: t := by
  cases h : commonShape xs with
  | none => exact ⟨[], by rw [shape, h]⟩
  | some s => exact ⟨s, by rw [shape, h]⟩

theorem iterable_shape_arr {w : Value} {xs : List Value}
    (hit : isIterable w = true) (hsh : shape w = shape (Value.arr xs)) :
    ∃ ys, w = Value.arr ys ∧ ys.length = xs.length := by
  obtain ⟨t, ht⟩ := shape_arr_cons xs
  cases w
  case arr ys =>
      obtain ⟨t2, ht2⟩ := shape_arr_cons ys
      rw [ht2, ht] at hsh
      injection hsh with h1 _
      exact ⟨ys, rfl, h1⟩
  case str s =>
      rw [ht] at hsh
      have hnil : ([] : List Nat) = xs.length :: t := hsh
      cases hnil
  all_goals cases hit

theorem array_attr_val_arr {o : SObj} {xs : List Value} {a : String}
    (hmain : getAttr o o.main_array_attr = some (Value.arr xs))
    (ha : a ∈ array_attrs o) :
    ∃ ys, getAttr o a = some (Value.arr ys) ∧ ys.length = xs.length := by
  have h := (mem_array_attrs_iff hmain (fun hc => by cases hc)).mp ha
  obtain ⟨-, w, hw, hit, hsh⟩ := h
  obtain ⟨ys, rfl, hlen⟩ := iterable_shape_arr hit hsh
  exact ⟨ys, hw, hlen⟩

/-! ### Sublist and nodup facts -/

theorem array_attrs_sublist (o : SObj) : (array_attrs o).Sublist (attrNames o) := by
  unfold array_attrs
  cases getAttr o o.main_array_attr with
  | none => exact List.nil_sublist _
  | some v =>
      cases v <;> first | exact List.nil_sublist _ | exact List.filter_sublist _

theorem meta_attrs_sublist (o : SObj) : (meta_attrs o).Sublist (attrNames o) := by
  unfold meta_attrs
  exact List.filter_sublist _

theorem keys_filterMap_sublist {l : List String} {F : String → Option (String × Value)}
    (h : ∀ a b, F a = some b → b.1 = a) :
    ((l.filterMap F).map Prod.fst).Sublist l := by
  induction l with
  | nil => simp
  | cons x t ih =>
      rw [List.filterMap_cons]
      cases hf : F x with
      | none => exact ih.cons _
      | some b =>
          rw [List.map_cons]
          rw [h x b hf]
          exact ih.cons₂ _

/-! ### Column structure of the exported table -/

/-- The row list of an array attribute (its value is always an `arr`;
see `array_attr_val_arr`). -/
def colRows (o : SObj) (a : String) : List Value :=
  match getAttr o a with
  | some (Value.arr ys) => ys
  | _ => []

theorem filterMap_eq_map_on {α β : Type} {l : List α} {F : α → Option β}
    {G : α → β} (h : ∀ a ∈ l, F a = some (G a)) : l.filterMap F = l.map G := by
  induction l with
  | nil => rfl
  | cons x t ih =>
      rw [List.filterMap_cons, h x (List.mem_cons_self _ _), List.map_cons,
        ih (fun a ha => h a (List.mem_cons_of_mem _ ha))]

theorem to_table_cols {o : SObj} {xs : List Value}
    (hmain : getAttr o o.main_array_attr = some (Value.arr xs)) :
    (to_astropy_table o).cols = (array_attrs o).map (fun a => (a, colRows o a)) := by
  apply filterMap_eq_map_on
  intro a ha
  obtain ⟨ys, hy, -⟩ := array_attr_val_arr hmain ha
  simp only [hy, colRows]

theorem colRows_eq {o : SObj} {a : String} {ys : List Value}
    (h : getAttr o a = some (Value.arr ys)) : colRows o a = ys := by
  simp only [colRows, h]

theorem get_meta_dict_keys_sublist (o : SObj) :
    ((get_meta_dict o).map Prod.fst).Sublist (meta_attrs o) := by
  unfold get_meta_dict
  apply keys_filterMap_sublist
  intro a b hf
  cases h : getAttr o a with
  | none => rw [h] at hf; cases hf
  | some w =>
      rw [h] at hf
      cases w
      case null => cases hf
      all_goals (injection hf with h1; rw [← h1])

theorem mem_main_array_attrs {o : SObj} {xs : List Value}
    (hmain : getAttr o o.main_array_attr = some (Value.arr xs)) :
    o.main_array_attr ∈ array_attrs o := by
  refine (mem_array_attrs_iff hmain (fun hc => by cases hc)).mpr
    ⟨mem_attrNames_of_getAttr hmain, Value.arr xs, hmain, rfl, rfl⟩

theorem to_table_colnames {o : SObj} {xs : List Value}
    (hmain : getAttr o o.main_array_attr = some (Value.arr xs)) :
    (to_astropy_table o).cols.map Prod.fst = array_attrs o := by
  rw [to_table_cols hmain, List.map_map]
  exact List.map_id _

/-- Claim C1 (amended): for every object with duplicate-free attribute names
whose main attribute value is a nonempty array, exporting with
`to_astropy_table` and importing back with `from_astropy_table` yields an
object whose array attributes, and whose meta attributes with non-null
values, are equal to the original's.  (The unamended universal claim fails
when the exported table is empty; see the counterexample.) -/
theorem claim_C1_roundtrip {o : SObj} {xs : List Value}
    (hwf : WF o)
    (hmain : getAttr o o.main_array_attr = some (Value.arr xs))
    (hne : xs ≠ []) :
    ∃ res, from_astropy_table (bareClass o) (to_astropy_table o) = some res ∧
      (∀ a ∈ array_attrs o, getAttr res a = getAttr o a) ∧
      (∀ k v, (k, v) ∈ get_meta_dict o → getAttr res k = some v) := by
  have hcols := to_table_cols hmain
  have hnames := to_table_colnames hmain
  have hmm := mem_main_array_attrs hmain
  have harrnd : (array_attrs o).Nodup := (array_attrs_sublist o).nodup hwf
  have hkeysnd : ((to_astropy_table o).cols.map Prod.fst).Nodup := by
    rw [hnames]; exact harrnd
  -- the exported table has at least one row
  have hlen : ¬ ATable.len (to_astropy_table o) = 0 := by
    cases harr : array_attrs o with
    | nil => rw [harr] at hmm; cases hmm
    | cons a0 rest =>
        have ha0 : a0 ∈ array_attrs o := by rw [harr]; exact List.mem_cons_self _ _
        obtain ⟨ys, hy, hylen⟩ := array_attr_val_arr hmain ha0
        have : (to_astropy_table o).cols = (a0, colRows o a0) ::
            rest.map (fun a => (a, colRows o a)) := by
          rw [hcols, harr, List.map_cons]
        rw [ATable.len, this, colRows_eq hy]
        show ¬ ys.length = 0
        rw [hylen]
        intro hc
        exact hne (List.length_eq_zero.mp hc)
  -- the main column is found
  have hlook : (to_astropy_table o).cols.lookup o.main_array_attr = some xs := by
    have hmem : (o.main_array_attr, colRows o o.main_array_attr) ∈
        (to_astropy_table o).cols := by
      rw [hcols]; exact List.mem_map_of_mem _ hmm
    rw [colRows_eq hmain] at hmem
    exact lookup_eq_some_of_mem_nodup hkeysnd hmem
  -- name the intermediate objects of the importer
  set CL := ((to_astropy_table o).cols.filter
      (fun p => p.1 != o.main_array_attr)).map
      (fun p => (p.1, Value.arr p.2)) with hCL
  set c1 := setAttr (bareClass o) o.main_array_attr (Value.arr xs) with hc1
  have heq : from_astropy_table (bareClass o) (to_astropy_table o) =
      some (setAll (setAll c1 CL) (to_astropy_table o).meta) := by
    rw [from_astropy_table, if_neg hlen]
    have hmb : (bareClass o).main_array_attr = o.main_array_attr := rfl
    rw [hmb, hlook]
  refine ⟨_, heq, ?_, ?_⟩
  · -- array attributes are preserved
    intro a ha
    have hanotmeta : a ∉ (to_astropy_table o).meta.map Prod.fst := by
      intro hamem
      have h1 : a ∈ meta_attrs o :=
        ((get_meta_dict_keys_sublist o).subset) hamem
      exact absurd ha (mem_meta_attrs_iff.mp h1).2.1
    rw [getAttr_setAll_not_mem _ hanotmeta]
    by_cases hma : a = o.main_array_attr
    · have hnotCL : a ∉ CL.map Prod.fst := by
        intro hamem
        rw [hCL, List.map_map] at hamem
        obtain ⟨p, hp, hpe⟩ := List.mem_map.mp hamem
        have hpf := (List.mem_filter.mp hp).2
        have hp1 : p.1 = a := hpe
        rw [hp1, hma] at hpf
        simp at hpf
      rw [getAttr_setAll_not_mem _ hnotCL, hc1, hma, getAttr_setAttr_same, hmain]
    · obtain ⟨ys, hy, -⟩ := array_attr_val_arr hmain ha
      have hCLnd : (CL.map Prod.fst).Nodup := by
        rw [hCL, List.map_map]
        have hfs : ((to_astropy_table o).cols.filter
            (fun p => p.1 != o.main_array_attr)).Sublist
            (to_astropy_table o).cols := List.filter_sublist _
        exact (hfs.map _).nodup hkeysnd
      have hmemCL : (a, Value.arr ys) ∈ CL := by
        rw [hCL]
        have hmemc : (a, colRows o a) ∈ (to_astropy_table o).cols := by
          rw [hcols]; exact List.mem_map_of_mem _ ha
        have hmemf : (a, colRows o a) ∈ (to_astropy_table o).cols.filter
            (fun p => p.1 != o.main_array_attr) := by
          refine List.mem_filter.mpr ⟨hmemc, ?_⟩
          exact bne_iff_ne.mpr hma
        have := List.mem_map_of_mem (fun p => (p.1, Value.arr p.2)) hmemf
        rw [colRows_eq hy] at this
        exact this
      rw [getAttr_setAll_mem _ hCLnd hmemCL, hy]
  · -- non-null meta attributes are preserved
    intro k v hkv
    have hmknd : ((to_astropy_table o).meta.map Prod.fst).Nodup :=
      ((get_meta_dict_keys_sublist o).trans (meta_attrs_sublist o)).nodup hwf
    exact getAttr_setAll_mem _ hmknd hkv

/-! ### Concrete objects and tables used by witnesses and counterexamples -/

/-- A representative object: two 1-D array attributes (`time`, `counts`), a
2-D meta attribute (`gti`), a string meta attribute (`mission`), a `None`
meta attribute (`mjdref`), an underscore-private attribute, a callable and a
nested StingrayObject. -/
def exObj : SObj :=
  { main_array_attr := "time",
    attrs := [("time", Value.arr [Value.int 0, Value.int 1]),
              ("counts", Value.arr [Value.int 5, Value.int 6]),
              ("gti", Value.arr [Value.arr [Value.int 0, Value.int 1]]),
              ("mission", Value.str "nustar"),
              ("mjdref", Value.null),
              ("_hidden", Value.int 3),
              ("calc", Value.func),
              ("sub", Value.sobj)] }

/-- An object whose main array is empty but which carries a non-null meta
attribute: its exported table has zero rows. -/
def oEmptyMain : SObj :=
  { main_array_attr := "time",
    attrs := [("time", Value.arr []), ("mission", Value.str "nustar")] }

/-- A meta-free object with one complex-valued array attribute alongside its
main attribute. -/
def cplxObj : SObj :=
  { main_array_attr := "time",
    attrs := [("time", Value.arr [Value.int 0, Value.int 1]),
              ("z", Value.arr [Value.cplx 1 2, Value.cplx 3 (-4)])] }

/-- A table whose `.imag` half-column precedes its `.real` half-column. -/
def badTable : ATable :=
  { cols := [("z.imag", [Value.int 2, Value.int (-4)]),
             ("z.real", [Value.int 1, Value.int 3])],
    meta := [] }

/-- A table whose first column is a `.real` half with no earlier suffixed
column. -/
def realOnlyTable : ATable :=
  { cols := [("z.real", [Value.int 1, Value.int 3])], meta := [] }

/-! ### The claims -/

/-- Claim C1, counterexample to the unamended statement: for the object with
an empty main array and the non-null meta attribute `mission`, the round trip
returns the empty-object sentinel (the bare class), on which `mission` is
absent rather than equal to the original's value. -/
theorem claim_C1_counterexample :
    "mission" ∈ meta_attrs oEmptyMain ∧
    ("mission", Value.str "nustar") ∈ get_meta_dict oEmptyMain ∧
    from_astropy_table (bareClass oEmptyMain) (to_astropy_table oEmptyMain) =
      some (bareClass oEmptyMain) ∧
    getAttr (bareClass oEmptyMain) "mission" = Option.none := by
  refine ⟨by decide, ?_, rfl, rfl⟩
  have h : get_meta_dict oEmptyMain = [("mission", Value.str "nustar")] := rfl
  rw [h]
  exact List.mem_singleton.mpr rfl

/-- Claim C1, witness: the round-trip theorem applied to the representative
object. -/
theorem claim_C1_roundtrip_witness :
    WF exObj ∧
    (∃ res, from_astropy_table (bareClass exObj) (to_astropy_table exObj) = some res ∧
      (∀ a ∈ array_attrs exObj, getAttr res a = getAttr exObj a) ∧
      (∀ k v, (k, v) ∈ get_meta_dict exObj → getAttr res k = some v)) :=
  ⟨by decide, claim_C1_roundtrip (by decide) rfl (by simp)⟩

/-- Claim C2: `array_attrs` returns exactly the attribute names whose value
is iterable and whose multi-dimensional shape equals the main attribute
value's shape, and returns the empty list when the main attribute is None. -/
theorem claim_C2_array_attrs_exact {o : SObj} {mv : Value}
    (hmain : getAttr o o.main_array_attr = some mv) :
    (mv = Value.null → array_attrs o = []) ∧
    (mv ≠ Value.null → ∀ a, a ∈ array_attrs o ↔ a ∈ attrNames o ∧
      ∃ w, getAttr o a = some w ∧ isIterable w = true ∧ shape w = shape mv) := by
  constructor
  · intro h
    subst h
    exact array_attrs_nil_of_null hmain
  · intro hnn a
    exact mem_array_attrs_iff hmain hnn

/-- Claim C2, witness: on the representative object, the same-shape extra
attribute `counts` is an array attribute and the differently shaped `gti`
is not. -/
theorem claim_C2_witness :
    "counts" ∈ array_attrs exObj ∧ "gti" ∉ array_attrs exObj := by
  have h := (@claim_C2_array_attrs_exact exObj
      (Value.arr [Value.int 0, Value.int 1]) rfl).2 (fun hc => by cases hc)
  constructor
  · exact (h "counts").mpr ⟨by decide,
      Value.arr [Value.int 5, Value.int 6], rfl, rfl, rfl⟩
  · intro hmem
    obtain ⟨-, w, hw, hit, hsh⟩ := (h "gti").mp hmem
    have hge : getAttr exObj "gti" =
        some (Value.arr [Value.arr [Value.int 0, Value.int 1]]) := rfl
    rw [hge] at hw
    injection hw with hw1
    subst hw1
    exact absurd hsh (by decide)

/-- Claim C3: the meta-free object with `z = [1+2j, 3-4j]` alongside its main
attribute, written with the text format `"ascii"`, stores `z` as the two real
columns `z.real = [1, 3]` and `z.imag = [2, -4]`; reading the written table
back with the same format reconstructs `z` (and the main attribute)
bit-exactly. -/
theorem claim_C3_complex_roundtrip :
    meta_attrs cplxObj = [] ∧
    (write cplxObj (some "ascii")).cols =
      [("time", [Value.int 0, Value.int 1]),
       ("z.real", [Value.int 1, Value.int 3]),
       ("z.imag", [Value.int 2, Value.int (-4)])] ∧
    (∃ res, read (bareClass cplxObj) (write cplxObj (some "ascii")) (some "ascii") =
        some res ∧
      getAttr res "z" = some (Value.arr [Value.cplx 1 2, Value.cplx 3 (-4)]) ∧
      getAttr res "time" = some (Value.arr [Value.int 0, Value.int 1])) :=
  ⟨rfl, rfl, _, rfl, rfl, rfl⟩

/-- Claim C4, the code's behaviour at the failing inputs: with the `.imag`
half-column first, the stale `is_imag` makes the reader multiply the `.real`
column by `1j` as well, yielding `z = [3j, -1j]` instead of `[1+2j, 3-4j]`;
and with a `.real` column first and no previously processed `.imag` column,
the unbound `is_imag` raises a `NameError` instead of combining the halves. -/
theorem claim_C4_stale_imag_flag :
    mergeComplexCols badTable =
      some { cols := [("z", [Value.cplx 0 3, Value.cplx 0 (-1)])], meta := [] } ∧
    mergeComplexCols realOnlyTable = Option.none :=
  ⟨rfl, rfl⟩

/-- Claim C5: each importer returns the empty-object sentinel — the class
itself, untouched — on a tabular representation with zero rows (table,
dataframe) or zero data variables (dataset). -/
theorem claim_C5_empty_importers (cls : SObj) (t : ATable) (d : XDataset)
    (p : PDataFrame) (h1 : ATable.len t = 0) (h2 : XDataset.len d = 0)
    (h3 : PDataFrame.len p = 0) :
    from_astropy_table cls t = some cls ∧ from_xarray cls d = some cls ∧
      from_pandas cls p = some cls := by
  refine ⟨?_, ?_, ?_⟩
  · rw [from_astropy_table, if_pos h1]
  · rw [from_xarray, if_pos h2]
  · rw [from_pandas, if_pos h3]

/-- Claim C5, witness: the three importers applied to empty representations. -/
theorem claim_C5_witness :
    from_astropy_table (bareClass exObj) ⟨[], []⟩ = some (bareClass exObj) ∧
    from_xarray (bareClass exObj) ⟨[], [], []⟩ = some (bareClass exObj) ∧
    from_pandas (bareClass exObj) ⟨[], []⟩ = some (bareClass exObj) :=
  claim_C5_empty_importers _ _ _ _ rfl rfl rfl

/-- Claim C6: `meta_attrs` returns exactly the attribute names that are not
array attributes, not underscore-prefixed, bound to a non-callable value
without the Structured-Object capability (a `meta_attrs` member). -/
theorem claim_C6_meta_attrs_exact (o : SObj) (a : String) :
    a ∈ meta_attrs o ↔ a ∈ attrNames o ∧ a ∉ array_attrs o ∧
      strStartsWith a "_" = false ∧
      ∃ v, getAttr o a = some v ∧ isCallable v = false ∧ hasMetaAttrs v = false :=
  mem_meta_attrs_iff

/-- Claim C7: `get_meta_dict` contains an entry for every meta attribute
whose value is not None and never an entry whose value is None.  (The call is
a pure read: in this embedding it is a function of the object and returns a
fresh list, mutating nothing.) -/
theorem claim_C7_get_meta_dict (o : SObj) :
    (∀ k v, k ∈ meta_attrs o → getAttr o k = some v → v ≠ Value.null →
      (k, v) ∈ get_meta_dict o) ∧
    (∀ k v, (k, v) ∈ get_meta_dict o → v ≠ Value.null) :=
  ⟨fun _ _ hk hv hnn => mem_get_meta_dict_iff.mpr ⟨hk, hv, hnn⟩,
   fun _ _ h => (mem_get_meta_dict_iff.mp h).2.2⟩

/-- Claim C8: with `fmt` unset, passing the deprecated `format_` gives the
same reader and writer results as passing `fmt` directly, plus exactly one
deprecation warning (and none when `fmt` is given); when both are given, the
deprecated value is ignored and no warning is emitted. -/
theorem claim_C8_deprecated_fmt (cls : SObj) (ts : ATable) (o : SObj)
    (f g : String) :
    read_entry cls ts Option.none (some f) =
      ((read_entry cls ts (some f) Option.none).1, 1) ∧
    write_entry o Option.none (some f) =
      ((write_entry o (some f) Option.none).1, 1) ∧
    (read_entry cls ts (some f) Option.none).2 = 0 ∧
    (write_entry o (some f) Option.none).2 = 0 ∧
    resolveFmt (some g) (some f) = (some g, 0) ∧
    resolveFmt Option.none (some f) = (some f, 1) :=
  ⟨rfl, rfl, rfl, rfl, rfl, rfl⟩

/-- Claim C9: construction fails with the documented `RuntimeError` exactly
when the `main_array_attr` declaration is absent. -/
theorem claim_C9_init_requires_main (o : RawObj) :
    (hasattrRaw o "main_array_attr" = false →
      init o = Except.error
        "A StingrayObject needs to have the main_array_attr attribute specified") ∧
    (hasattrRaw o "main_array_attr" = true → init o = Except.ok ()) := by
  constructor <;> intro h <;> simp [init, h]

/-- Claim C10 (implicit): the scan in `array_attrs` applies no exclusion for
the main attribute, so whenever the main attribute's value is a non-None
iterable its own name is in the list, and the main array is itself a column
of the exported table. -/
theorem claim_C10_main_is_array_attr {o : SObj} {mv : Value}
    (hwf : WF o) (hmain : getAttr o o.main_array_attr = some mv)
    (hit : isIterable mv = true) :
    o.main_array_attr ∈ array_attrs o ∧
    (∀ xs, mv = Value.arr xs →
      (to_astropy_table o).cols.lookup o.main_array_attr = some xs) := by
  have hnn : mv ≠ Value.null := by
    intro h
    rw [h] at hit
    cases hit
  constructor
  · exact (mem_array_attrs_iff hmain hnn).mpr
      ⟨mem_attrNames_of_getAttr hmain, mv, hmain, hit, rfl⟩
  · rintro xs rfl
    have hkeysnd : ((to_astropy_table o).cols.map Prod.fst).Nodup := by
      rw [to_table_colnames hmain]
      exact (array_attrs_sublist o).nodup hwf
    have hmem : (o.main_array_attr, colRows o o.main_array_attr) ∈
        (to_astropy_table o).cols := by
      rw [to_table_cols hmain]
      exact List.mem_map_of_mem _ (mem_main_array_attrs hmain)
    rw [colRows_eq hmain] at hmem
    exact lookup_eq_some_of_mem_nodup hkeysnd hmem

/-- Claim C10, witness: on the representative object, `time` classifies as an
array attribute and its array is a column of the export. -/
theorem claim_C10_witness :
    "time" ∈ array_attrs exObj ∧
    (to_astropy_table exObj).cols.lookup "time" =
      some [Value.int 0, Value.int 1] := by
  have h := @claim_C10_main_is_array_attr exObj
      (Value.arr [Value.int 0, Value.int 1]) (by decide) rfl rfl
  exact ⟨h.1, h.2 _ rfl⟩
